/-
Verification development for the DistributedCodeSearchEngine repository.

The Python sources under codesearch/ are shallowly embedded below:
pure functions become Lean functions, the BM25 index object becomes an
explicit state record, Python floats are modelled as exact rationals,
Python dicts (which preserve insertion order) become association lists
with in-place update, and Python's stable `list.sort` becomes
`List.insertionSort` (which is stable for the total preorders used here).
The third-party BM25Okapi scorer (`rank_bm25`) is outside the repository
and is abstracted as a scoring oracle passed to `BM25State.search`; every
property proved about search quantifies over that oracle.

String handling: the repository manipulates ASCII identifiers, keywords
and file names; `str.lower`, character classes `[a-z]`, `[A-Z]`,
`[0-9]` and `\s` from the Python sources are embedded at their exact
ASCII meaning, operating on `String.data` character lists.
-/
import Mathlib

set_option allowUnsafeReducibility true in
attribute [semireducible] Rat.add Rat.mul Rat.sub Rat.inv Rat.div Rat.ofScientific

/-! ## Character and string helpers (ASCII semantics of the Python string ops) -/

/-- ASCII lowercase test, the Python character class `[a-z]`. -/
def isAsciiLower (c : Char) : Bool := 'a' ≤ c && c ≤ 'z'

/-- ASCII uppercase test, the Python character class `[A-Z]`. -/
def isAsciiUpper (c : Char) : Bool := 'A' ≤ c && c ≤ 'Z'

/-- ASCII digit test, the Python character class `[0-9]`. -/
def isAsciiDigit (c : Char) : Bool := '0' ≤ c && c ≤ '9'

/-- Python whitespace class `\s` over ASCII: space, tab, newline,
carriage return, vertical tab, form feed. -/
def isWsChar (c : Char) : Bool :=
  c == ' ' || c == '\t' || c == '\n' || c == '\r' || c == '\x0b' || c == '\x0c'

/-- ASCII lowering of one character, the effect of Python `str.lower`
on the ASCII inputs the engine handles. -/
def lowerChar (c : Char) : Char :=
  if isAsciiUpper c then Char.ofNat (c.toNat + 32) else c

/-- Python `str.lower` (ASCII). -/
def strLower (s : String) : String := ⟨s.data.map lowerChar⟩

/-- Whether `pre` is an initial segment of the second list. -/
def startsWithL : List Char → List Char → Bool
  | [], _ => true
  | _ :: _, [] => false
  | a :: as, b :: bs => a == b && startsWithL as bs

/-- Substring containment on character lists: some suffix of the
haystack starts with the needle. -/
def containsL (needle : List Char) : List Char → Bool
  | [] => needle.isEmpty
  | b :: bs => startsWithL needle (b :: bs) || containsL needle bs

/-- Python's `needle in hay` on strings. -/
def strContains (hay needle : String) : Bool := containsL needle.data hay.data

/-- Python's `hay.startswith(needle)`. -/
def strStartsWith (hay needle : String) : Bool := startsWithL needle.data hay.data

/-- First `n` characters of a string, Python's `s[:n]`. -/
def strTake (s : String) (n : ℕ) : String := ⟨s.data.take n⟩

/-- Maximum of a list of rationals, Python's `max` (0 on the empty list,
which the sources never hit). -/
def maxList : List ℚ → ℚ
  | [] => 0
  | x :: t => t.foldl max x

/-- Minimum of a list of rationals, Python's `min` (0 on the empty list,
which the sources never hit). -/
def minList : List ℚ → ℚ
  | [] => 0
  | x :: t => t.foldl min x

/-! ## Data model (codesearch/models.py)

CodeEntity mirrors the pydantic model: enumeration fields carry their
`.value` strings, optional fields are `Option`, and the `created_at`
timestamp (pure metadata, unread by the engine) is omitted.  The random
uuid4 default for `id` is abstracted: entities built by the parser model
carry the empty id, and nothing proved below depends on parser-assigned
ids. -/

structure CodeEntity where
  id : String := ""
  name : String
  entity_type : String
  language : String := "python"
  file_path : String
  repo_name : String
  start_line : ℕ := 1
  end_line : ℕ := 1
  source_code : String := ""
  docstring : Option String := none
  signature : Option String := none
  parameters : List String := []
  return_type : Option String := none
  decorators : List String := []
  parent_class : Option String := none
  complexity : Option ℕ := none
  loc : ℕ := 0
deriving DecidableEq, Repr

/-- A single search result (models.SearchResult). -/
structure SearchResult where
  entity : CodeEntity
  score : ℚ
  semantic_score : ℚ := 0
  bm25_score : ℚ := 0
  highlights : List String := []
deriving DecidableEq, Repr

/-- The filter mapping built by the engines: at most one equality
constraint per key among language, entity_type, repo_name. -/
structure Filters where
  language : Option String := none
  entity_type : Option String := none
  repo_name : Option String := none
deriving DecidableEq, Repr

/-- BM25Index.search filter pass (string equality on each supplied key). -/
def passFilters (f : Filters) (e : CodeEntity) : Bool :=
  (match f.language with | some v => e.language == v | none => true) &&
  (match f.entity_type with | some v => e.entity_type == v | none => true) &&
  (match f.repo_name with | some v => e.repo_name == v | none => true)

/-! ## BM25 tokenizer (codesearch/storage/bm25_index.py, BM25Index._tokenize)

The two camelCase regex substitutions are embedded as single
left-to-right passes.  For `([a-z])([A-Z])` a match consumes one
lowercase and one uppercase character, and no two matches can overlap,
so the substitution inserts a space between every adjacent
lowercase-uppercase pair.  For `([A-Z]+)([A-Z][a-z])` the greedy
uppercase run places the inserted space exactly between characters
`i` and `i+1` whenever `i` and `i+1` are uppercase and `i+2` is
lowercase, and successive matches cannot overlap either, so the
substitution is again a single adjacency pass. -/

/-- Pass for `re.sub(r'([a-z])([A-Z])', r'\1 \2', text)`. -/
def camelSplit1 : List Char → List Char
  | [] => []
  | [c] => [c]
  | a :: b :: rest =>
      if isAsciiLower a && isAsciiUpper b then a :: ' ' :: camelSplit1 (b :: rest)
      else a :: camelSplit1 (b :: rest)

/-- Pass for `re.sub(r'([A-Z]+)([A-Z][a-z])', r'\1 \2', text)`. -/
def camelSplit2 : List Char → List Char
  | a :: b :: c :: rest =>
      if isAsciiUpper a && isAsciiUpper b && isAsciiLower c then
        a :: ' ' :: camelSplit2 (b :: c :: rest)
      else a :: camelSplit2 (b :: c :: rest)
  | l => l

/-- Pass for `re.sub(r'[_\-./\\]', ' ', text)`: separators become spaces. -/
def replaceSeparators (cs : List Char) : List Char :=
  cs.map (fun c =>
    if c == '_' || c == '-' || c == '.' || c == '/' || c == '\\' then ' ' else c)

/-- Pass for `re.sub(r'[^a-z0-9\s]', ' ', text)`: every character that is
not a lowercase letter, digit or whitespace becomes a space. -/
def replaceSpecial (cs : List Char) : List Char :=
  cs.map (fun c => if isAsciiLower c || isAsciiDigit c || isWsChar c then c else ' ')

/-- Helper for Python `str.split()`: accumulate the current word
(reversed) and cut at whitespace. -/
def splitWsAux : List Char → List Char → List (List Char)
  | [], cur => if cur.isEmpty then [] else [cur.reverse]
  | c :: rest, cur =>
      if isWsChar c then
        if cur.isEmpty then splitWsAux rest [] else cur.reverse :: splitWsAux rest []
      else splitWsAux rest (c :: cur)

/-- Python `text.split()` (split on whitespace runs, no empty tokens). -/
def splitWs (cs : List Char) : List String := (splitWsAux cs []).map (fun w => ⟨w⟩)

namespace BM25Index

/-- BM25Index._tokenize: camelCase splitting before lowercasing, then
separator replacement, special-character replacement, whitespace split,
and the minimum token length of 2. -/
def tokenize (text : String) : List String :=
  let t1 := camelSplit1 text.data
  let t2 := camelSplit2 t1
  let lowered := t2.map lowerChar
  let seps := replaceSeparators lowered
  let cleaned := replaceSpecial seps
  (splitWs cleaned).filter (fun t => 2 ≤ t.length)

end BM25Index

/-- The tokenizer exactly as claim C4 words it: identical pipeline except
that step 4 REMOVES (deletes) every character outside lowercase letters,
digits and whitespace, instead of replacing it with a space. -/
def tokenizeClaimC4 (text : String) : List String :=
  (splitWs ((replaceSeparators ((camelSplit2 (camelSplit1 text.data)).map lowerChar)).filter
      (fun c => isAsciiLower c || isAsciiDigit c || isWsChar c))).filter
    (fun t => 2 ≤ t.length)

/-- The tokenizer as amended: the same pipeline with step 4 replacing
each character outside lowercase letters, digits and whitespace by a
space (which is what the source regex substitution does). -/
def tokenizeAmendedC4 (text : String) : List String :=
  (splitWs (replaceSpecial (replaceSeparators
      ((camelSplit2 (camelSplit1 text.data)).map lowerChar)))).filter
    (fun t => 2 ≤ t.length)

/-! ## BM25 index state (codesearch/storage/bm25_index.py)

The mutable object becomes a state record.  The `rank_bm25.BM25Okapi`
value stored in `_bm25` is represented by the corpus snapshot it was
built from (the scorer itself is a third-party library abstracted as an
oracle `score : corpus → query tokens → scores`). -/

structure BM25State where
  entities : List CodeEntity
  corpus : List (List String)
  entity_ids : List (String × ℕ)
  bm25 : Option (List (List String))
deriving DecidableEq, Repr

/-- The empty, freshly constructed index. -/
def freshBM25 : BM25State := ⟨[], [], [], none⟩

/-- BM25Index._rebuild_index: drop the scorer when the corpus is empty,
else rebuild it from the whole corpus. -/
def rebuildIndex (st : BM25State) : BM25State :=
  if st.corpus.isEmpty then { st with bm25 := none }
  else { st with bm25 := some st.corpus }

/-- A state whose scorer is consistent with its corpus, as every state
reachable through the class methods is. -/
def BM25WF (st : BM25State) : Prop :=
  st.bm25 = (if st.corpus.isEmpty then none else some st.corpus)

/-- The score floor of BM25Index.search: `max(scores) * 0.01` when there
are scores and the maximum is positive, else no floor (negative
infinity, represented as `none`). -/
def bm25Threshold (scores : List ℚ) : Option ℚ :=
  if !scores.isEmpty && 0 < maxList scores then some (maxList scores * 0.01) else none

/-- Keep test against the floor: the loop skips a row iff
`score < min_score`. -/
def bm25Keep (m : Option ℚ) (s : ℚ) : Bool :=
  match m with
  | some t => !(s < t)
  | none => true

/-- The result rows surviving the floor and the filters, in corpus
order, pairing each entity with its score (the Python loop walks
`enumerate(scores)` and indexes `_entities`; rows are paired by
position). -/
def bm25Candidates (entities : List CodeEntity) (scores : List ℚ) (m : Option ℚ)
    (f : Filters) : List (CodeEntity × ℚ) :=
  (entities.zip scores).filter (fun es => bm25Keep m es.2 && passFilters f es.1)

/-- BM25Index.search: empty scorer or empty entity list gives no
results; empty query tokens give no results; otherwise floor, filter,
stable-sort by descending score and truncate to `limit`. -/
def BM25State.search (score : List (List String) → List String → List ℚ)
    (st : BM25State) (q : String) (limit : ℕ) (f : Filters) : List (CodeEntity × ℚ) :=
  match st.bm25 with
  | none => []
  | some bmCorpus =>
    if st.entities.isEmpty then []
    else
      let qTokens := BM25Index.tokenize q
      if qTokens.isEmpty then []
      else
        let scores := score bmCorpus qTokens
        let pre := bm25Candidates st.entities scores (bm25Threshold scores) f
        (pre.insertionSort (fun a b => b.2 ≤ a.2)).take limit

/-- The on-disk pickle of BM25Index.save, decoded: a mapping whose three
keys may each be absent (a malformed file).  The pydantic round trip
`CodeEntity(**e.model_dump())` is the identity on the embedded record. -/
structure SavedData where
  entities : Option (List CodeEntity)
  corpus : Option (List (List String))
  entity_ids : Option (List (String × ℕ))
deriving DecidableEq, Repr

/-- BM25Index.save: serialize the three public components. -/
def BM25State.save (st : BM25State) : SavedData :=
  ⟨some st.entities, some st.corpus, some st.entity_ids⟩

/-- BM25Index.load.  `none` for `file` is a missing or unpicklable file
(return False, state untouched).  Otherwise the three assignments run in
source order inside the `try`: a missing `entities` key raises before
any assignment; a missing `corpus` key raises after `_entities` was
already replaced; a missing `entity_ids` key raises after `_entities`
and `_corpus` were replaced.  Only the full success path rebuilds the
scorer and returns True. -/
def BM25State.load (st : BM25State) (file : Option SavedData) : BM25State × Bool :=
  match file with
  | none => (st, false)
  | some d =>
    match d.entities with
    | none => (st, false)
    | some es =>
      let st1 := { st with entities := es }
      match d.corpus with
      | none => (st1, false)
      | some cs =>
        let st2 := { st1 with corpus := cs }
        match d.entity_ids with
        | none => (st2, false)
        | some ids =>
          (rebuildIndex { st2 with entity_ids := ids }, true)

/-! ## Hybrid search engine (codesearch/search/engine.py, HybridSearchEngine) -/

/-- The engine default for the semantic weight
(HybridSearchEngine.__init__, semantic_weight: float = 0.7). -/
def defaultSemanticWeight : ℚ := 0.7

/-- Case-insensitive keyword presence: Python's
`any(term in s for term in keywords)`. -/
def anyKeywordIn (s : String) (keywords : List String) : Bool :=
  keywords.any (fun t => strContains s t)

/-- HybridSearchEngine._enhance_query: rewrite the query for the
embedding model by keyword buckets, in source order. -/
def enhance_query (query : String) : String :=
  let ql := strLower query
  if anyKeywordIn ql ["http", "request", "api", "url", "web"] then
    if strContains ql "handle" &&
        !(anyKeywordIn ql ["redirect", "response", "error", "exception", "cookie", "process"]) then
      "function that sends makes HTTP requests GET POST PUT DELETE PATCH"
    else if anyKeywordIn ql ["make", "send", "perform", "execute", "do"] then
      "function that sends or makes HTTP requests: " ++ query
    else
      "HTTP request function: " ++ query
  else if anyKeywordIn ql ["json", "parse", "decode"] then
    "JSON parsing function: " ++ query
  else if anyKeywordIn ql ["auth", "login", "token"] then
    "authentication function: " ++ query
  else if anyKeywordIn ql ["download", "file", "save"] then
    "file handling function: " ++ query
  else
    "function or method that " ++ query

/-- The per-entity boost of HybridSearchEngine._reciprocal_rank_fusion.
The source loop stores `data['http_boost']` per dictionary entry; the
stored value depends only on the query and the entry's entity, so it is
factored into this function of the two.  `query` is `Optional[str]` in
the source and `if query and ...` treats the empty string as absent. -/
def http_boost (query : Option String) (e : CodeEntity) : ℚ :=
  let triggered :=
    match query with
    | some qs => !(qs == "") && anyKeywordIn (strLower qs) ["http", "request", "api"]
    | none => false
  if triggered then
    let fp := strLower e.file_path
    let nm := strLower e.name
    if strContains fp "api.py" then
      if anyKeywordIn nm ["request", "get", "post", "put", "patch", "delete", "head", "options"] then
        1.5
      else 1
    else if strContains fp "sessions.py" && strContains nm "send" then 1.5
    else if strContains fp "adapters.py" && strContains nm "send" then 1.3
    else if anyKeywordIn nm ["handle_", "test_"] then 0.7
    else 1
  else 1

/-- The reciprocal-rank term `1 / (k + rank + 1)`. -/
def rrfQ (k rank : ℕ) : ℚ := 1 / ((k : ℚ) + (rank : ℚ) + 1)

/-- One entry of the fusion dictionary `scores` built inside
`_reciprocal_rank_fusion` (the stored `http_boost` key is factored into
`http_boost` above). -/
structure FusionData where
  entity : CodeEntity
  semantic_rrf : ℚ
  semantic_raw : ℚ
  bm25_rrf : ℚ
  bm25_raw : ℚ
deriving DecidableEq, Repr

/-- The fusion dictionary: a Python dict keyed by entity id, embedded as
an association list in insertion order. -/
abbrev ScoresDict : Type := List (String × FusionData)

/-- Python `scores[key] = v`: replace in place when the key is present,
else append. -/
def dictSet (d : ScoresDict) (key : String) (v : FusionData) : ScoresDict :=
  if d.any (fun p => p.1 == key) then
    d.map (fun p => if p.1 == key then (p.1, v) else p)
  else d ++ [(key, v)]

/-- The loop over `enumerate(semantic_results)`: each entity id is
assigned a full entry with its weighted reciprocal-rank contribution and
raw score, and zero BM25 fields. -/
def processSemantic (w : ℚ) (k : ℕ) : ℕ → List (CodeEntity × ℚ) → ScoresDict → ScoresDict
  | _, [], d => d
  | rank, (e, s) :: rest, d =>
      processSemantic w k (rank + 1) rest (dictSet d e.id ⟨e, rrfQ k rank * w, s, 0, 0⟩)

/-- The loop over `enumerate(bm25_results)`: an id already present gets
its two BM25 fields assigned; a new id gets a fresh entry with zero
semantic fields. -/
def processBM25 (wb : ℚ) (k : ℕ) : ℕ → List (CodeEntity × ℚ) → ScoresDict → ScoresDict
  | _, [], d => d
  | rank, (e, s) :: rest, d =>
      let v := rrfQ k rank * wb
      let d' :=
        if d.any (fun p => p.1 == e.id) then
          d.map (fun p =>
            if p.1 == e.id then (p.1, { p.2 with bm25_rrf := v, bm25_raw := s }) else p)
        else d ++ [(e.id, ⟨e, 0, 0, v, s⟩)]
      processBM25 wb k (rank + 1) rest d'

/-- The combine step: each dictionary entry becomes
`(entity, (semantic_rrf + bm25_rrf) * boost, semantic_raw, bm25_raw)`. -/
def combineScores (query : Option String) (d : ScoresDict) : List (CodeEntity × ℚ × ℚ × ℚ) :=
  d.map (fun p =>
    (p.2.entity, (p.2.semantic_rrf + p.2.bm25_rrf) * http_boost query p.2.entity,
     p.2.semantic_raw, p.2.bm25_raw))

/-- The body of `_reciprocal_rank_fusion` after the adaptive-weight
check, with `w` the effective semantic weight and `1 - w` the BM25
weight: build the dictionary, combine with boosts, stable-sort by
descending combined score. -/
def rrfWithWeight (sem bm : List (CodeEntity × ℚ)) (w : ℚ) (k : ℕ)
    (query : Option String) : List (CodeEntity × ℚ × ℚ × ℚ) :=
  let d := processBM25 (1 - w) k 0 bm (processSemantic w k 0 sem [])
  (combineScores query d).insertionSort (fun a b => b.2.1 ≤ a.2.1)

/-- The spread `max - min` of the returned vector scores. -/
def scoreRange (sem : List (CodeEntity × ℚ)) : ℚ :=
  maxList (sem.map (fun p => p.2)) - minList (sem.map (fun p => p.2))

/-- The adaptive-weight check at the head of `_reciprocal_rank_fusion`:
with a nonempty semantic result set whose score spread is below 0.05,
the semantic weight is overridden to 0.3. -/
def effectiveSemanticWeight (sem : List (CodeEntity × ℚ)) (w : ℚ) : ℚ :=
  if sem.isEmpty then w
  else if scoreRange sem < 0.05 then 0.3
  else w

/-- HybridSearchEngine._reciprocal_rank_fusion, whole. -/
def reciprocal_rank_fusion (sem bm : List (CodeEntity × ℚ)) (w : ℚ) (k : ℕ)
    (query : Option String) : List (CodeEntity × ℚ × ℚ × ℚ) :=
  rrfWithWeight sem bm (effectiveSemanticWeight sem w) k query

/-- SearchEngine._extract_highlights: docstring prefix of at most 200
characters when the docstring is present and nonempty, then the
signature when present and nonempty (Python truthiness on the strings). -/
def extract_highlights (e : CodeEntity) : List String :=
  (match e.docstring with
   | some d => if d == "" then [] else [strTake d 200]
   | none => []) ++
  (match e.signature with
   | some s => if s == "" then [] else [s]
   | none => [])

/-- HybridSearchEngine.search on the hybrid path (use_hybrid=True).
The embedder and the vector store are external collaborators, passed as
oracles; the BM25 scorer oracle is threaded to `BM25State.search`.  The
enhanced query feeds only the embedding; BM25 receives the original
query; both retrievals ask for `2 * limit` rows; fusion runs with
`k = 60` and the original query for the boost stage; the first `limit`
fused rows become SearchResult records carrying the raw scores. -/
def hybridSearch (embed : String → List ℚ)
    (vsearch : List ℚ → ℕ → Filters → List (CodeEntity × ℚ))
    (score : List (List String) → List String → List ℚ)
    (st : BM25State) (q : String) (limit : ℕ) (f : Filters)
    (semantic_weight : Option ℚ) (engineWeight : ℚ) : List SearchResult :=
  let w := semantic_weight.getD engineWeight
  let enhanced := enhance_query q
  let semanticResults := vsearch (embed enhanced) (limit * 2) f
  let bm25Results := st.search score q (limit * 2) f
  let combined := reciprocal_rank_fusion semanticResults bm25Results w 60 (some q)
  (combined.take limit).map (fun x =>
    ⟨x.1, x.2.1, x.2.2.1, x.2.2.2, extract_highlights x.1⟩)

/-! ## Observation functions used by the theorem statements -/

/-- The ids of a retrieval list, in order. -/
def idsOf (l : List (CodeEntity × ℚ)) : List String := l.map (fun p => p.1.id)

/-- The keys of a fusion dictionary, in order. -/
def keysOf (d : ScoresDict) : List String := d.map (fun p => p.1)

/-- The 0-based rank of an id in a retrieval list. -/
def rankOf (l : List (CodeEntity × ℚ)) (id : String) : Option ℕ :=
  l.findIdx? (fun p => p.1.id == id)

/-- The reciprocal-rank term an id earns from one retrieval list:
`1 / (k + i + 1)` at rank `i`, and 0 when absent. -/
def rrfTermOf (k : ℕ) (l : List (CodeEntity × ℚ)) (id : String) : ℚ :=
  match rankOf l id with
  | some i => rrfQ k i
  | none => 0

/-- The raw score an id carries in a retrieval list (0 when absent). -/
def rawOf (l : List (CodeEntity × ℚ)) (id : String) : ℚ :=
  match l.find? (fun p => p.1.id == id) with
  | some p => p.2
  | none => 0

/-! ## Python extractor (codesearch/parser/python_parser.py, tree-sitter path)

A tree-sitter syntax node is embedded as a rose tree carrying its node
type, its source text (the slice `source_bytes[start_byte:end_byte]`),
its 0-based start and end rows, and its ordered children.  The Python
code reads a node's preceding siblings through `prev_sibling`; in the
positional embedding the visitors thread the list of preceding siblings
(nearest first) explicitly. -/

inductive TSNode where
  | mk (ty : String) (txt : String) (startRow : ℕ) (endRow : ℕ) (children : List TSNode)

def TSNode.ty : TSNode → String
  | .mk t _ _ _ _ => t

def TSNode.txt : TSNode → String
  | .mk _ x _ _ _ => x

def TSNode.startRow : TSNode → ℕ
  | .mk _ _ r _ _ => r

def TSNode.endRow : TSNode → ℕ
  | .mk _ _ _ r _ => r

def TSNode.children : TSNode → List TSNode
  | .mk _ _ _ _ c => c

/-- The class-name scan of `_extract_functions` (first identifier child,
the loop breaks on the first hit). -/
def firstIdentifierText (ch : List TSNode) : Option String :=
  (ch.find? (fun c => c.ty == "identifier")).map (fun c => c.txt)

/-- CodeParser._calculate_complexity: 1 plus the number of
branch-typed nodes in the subtree (the root included). -/
def branchTypes : List String :=
  ["if_statement", "elif_clause", "for_statement", "while_statement",
   "except_clause", "with_statement", "conditional_expression", "and", "or"]

mutual

def countBranches : TSNode → ℕ
  | .mk t _ _ _ ch => (if branchTypes.contains t then 1 else 0) + countBranchesList ch

def countBranchesList : List TSNode → ℕ
  | [] => 0
  | c :: rest => countBranches c + countBranchesList rest

end

def calculateComplexity (n : TSNode) : ℕ := 1 + countBranches n

/-- PythonParser._extract_parameters: plain identifiers, the first
identifier inside compound parameter nodes, and star-prefixed splat
parameters, in child order. -/
def extractParameters (paramsNode : TSNode) : List String :=
  paramsNode.children.foldl (fun acc child =>
    if child.ty == "identifier" then acc ++ [child.txt]
    else if child.ty == "default_parameter" || child.ty == "typed_parameter" ||
        child.ty == "typed_default_parameter" then
      match child.children.find? (fun sc => sc.ty == "identifier") with
      | some sc => acc ++ [sc.txt]
      | none => acc
    else if child.ty == "list_splat_pattern" then
      match child.children.find? (fun sc => sc.ty == "identifier") with
      | some sc => acc ++ ["*" ++ sc.txt]
      | none => acc
    else if child.ty == "dictionary_splat_pattern" then
      match child.children.find? (fun sc => sc.ty == "identifier") with
      | some sc => acc ++ ["**" ++ sc.txt]
      | none => acc
    else acc) []

/-- The component scan of `_parse_function_node`: the loop over children
reassigns the name on each identifier child, the parameter list on each
parameters child, and the return type on each type child. -/
def fnComponents (ch : List TSNode) : Option String × List String × Option String :=
  ch.foldl (fun acc child =>
    if child.ty == "identifier" then (some child.txt, acc.2.1, acc.2.2)
    else if child.ty == "parameters" then (acc.1, extractParameters child, acc.2.2)
    else if child.ty == "type" then (acc.1, acc.2.1, some child.txt)
    else acc) (none, [], none)

/-- The decorator walk shared by `_parse_function_node` and
`_parse_class_node`: follow preceding siblings while they are decorator
nodes, inserting each at the front (so the farthest decorator ends up
first).  `prevs` lists the preceding siblings nearest first. -/
def leadingDecorators : List TSNode → List String
  | [] => []
  | p :: rest => if p.ty == "decorator" then leadingDecorators rest ++ [p.txt] else []

/-- Python `docstring.strip('"""\x27\x27\x27').strip()`: strip quote
characters from both ends, then whitespace. -/
def stripDocQuotes (s : String) : String :=
  let q := fun c => c == '"' || c == '\''
  let core := ((s.data.dropWhile q).reverse.dropWhile q).reverse
  ⟨((core.dropWhile isWsChar).reverse.dropWhile isWsChar).reverse⟩

/-- PythonParser._extract_python_docstring: in each block child look at
the first statement only; when it is an expression statement, return the
stripped text of its first string child. -/
def extractPythonDocstring (n : TSNode) : Option String :=
  n.children.findSome? (fun child =>
    if child.ty == "block" then
      match child.children.head? with
      | some stmt =>
        if stmt.ty == "expression_statement" then
          stmt.children.findSome? (fun expr =>
            if expr.ty == "string" then some (stripDocQuotes expr.txt) else none)
        else none
      | none => none
    else none)

/-- PythonParser._build_signature. -/
def buildSignature (name : String) (params : List String) (returnType : Option String) : String :=
  let sig := "def " ++ name ++ "(" ++ String.intercalate ", " params ++ ")"
  match returnType with
  | some rt => sig ++ " -> " ++ rt
  | none => sig

/-- PythonParser._parse_function_node. -/
def parseFunctionNode (filePath repoName : String) (parentClass : Option String)
    (prevs : List TSNode) (n : TSNode) : Option CodeEntity :=
  let comp := fnComponents n.children
  match comp.1 with
  | none => none
  | some name => some
    { id := ""
      name := name
      entity_type := if parentClass.isSome then "method" else "function"
      language := "python"
      file_path := filePath
      repo_name := repoName
      start_line := n.startRow + 1
      end_line := n.endRow + 1
      source_code := n.txt
      docstring := extractPythonDocstring n
      signature := some (buildSignature name comp.2.1 comp.2.2)
      parameters := comp.2.1
      return_type := comp.2.2
      decorators := leadingDecorators prevs
      parent_class := parentClass
      complexity := some (calculateComplexity n)
      loc := n.endRow - n.startRow + 1 }

/-- The component scan of `_parse_class_node`: the name is reassigned on
each identifier child and base-class identifiers accumulate from each
argument_list child. -/
def classComponents (ch : List TSNode) : Option String × List String :=
  ch.foldl (fun acc child =>
    if child.ty == "identifier" then (some child.txt, acc.2)
    else if child.ty == "argument_list" then
      (acc.1, acc.2 ++ (child.children.filter (fun a => a.ty == "identifier")).map
        (fun a => a.txt))
    else acc) (none, [])

/-- PythonParser._parse_class_node. -/
def parseClassNode (filePath repoName : String) (prevs : List TSNode)
    (n : TSNode) : Option CodeEntity :=
  let comp := classComponents n.children
  match comp.1 with
  | none => none
  | some name => some
    { id := ""
      name := name
      entity_type := "class"
      language := "python"
      file_path := filePath
      repo_name := repoName
      start_line := n.startRow + 1
      end_line := n.endRow + 1
      source_code := n.txt
      docstring := extractPythonDocstring n
      signature := "class " ++ name ++
        (if comp.2.isEmpty then "" else "(" ++ String.intercalate ", " comp.2 ++ ")")
      parameters := comp.2
      return_type := none
      decorators := leadingDecorators prevs
      parent_class := none
      complexity := some (calculateComplexity n)
      loc := n.endRow - n.startRow + 1 }

/-! The `visit` closure of PythonParser._extract_functions: a
function_definition node is parsed and emitted without recursing into
it; a class_definition node has its name read and only its block
children's statements visited, with the class name as the current
class; any other node has all children visited with the current class
unchanged. -/

mutual

def extractFnVisit (fp rn : String) (cls : Option String) (prevs : List TSNode) :
    TSNode → List CodeEntity
  | n@(.mk t _ _ _ ch) =>
    if t == "function_definition" then (parseFunctionNode fp rn cls prevs n).toList
    else if t == "class_definition" then
      extractFnClassChildren fp rn (firstIdentifierText ch) ch
    else extractFnChildren fp rn cls [] ch

def extractFnChildren (fp rn : String) (cls : Option String) (prevs : List TSNode) :
    List TSNode → List CodeEntity
  | [] => []
  | c :: rest =>
      extractFnVisit fp rn cls prevs c ++ extractFnChildren fp rn cls (c :: prevs) rest

def extractFnClassChildren (fp rn : String) (cname : Option String) :
    List TSNode → List CodeEntity
  | [] => []
  | (.mk t _ _ _ ch) :: rest =>
      (if t == "block" then extractFnChildren fp rn cname [] ch else []) ++
        extractFnClassChildren fp rn cname rest

end

/-- PythonParser._extract_functions. -/
def extract_functions (fp rn : String) (root : TSNode) : List CodeEntity :=
  extractFnVisit fp rn none [] root

/-! The `visit` closure of PythonParser._extract_classes: a
class_definition node is parsed and emitted, then all children are
visited EXCEPT those that are themselves class_definition nodes (the
source comment says this avoids recursing into nested classes; since
`visit` starts at the module root, it also means no class_definition
node is ever visited at all). -/

mutual

def extractClsVisit (fp rn : String) (prevs : List TSNode) : TSNode → List CodeEntity
  | n@(.mk t _ _ _ ch) =>
    (if t == "class_definition" then (parseClassNode fp rn prevs n).toList else []) ++
      extractClsChildren fp rn [] ch

def extractClsChildren (fp rn : String) (prevs : List TSNode) :
    List TSNode → List CodeEntity
  | [] => []
  | c :: rest =>
      (if !(c.ty == "class_definition") then extractClsVisit fp rn prevs c else []) ++
        extractClsChildren fp rn (c :: prevs) rest

end

/-- PythonParser._extract_classes. -/
def extract_classes (fp rn : String) (root : TSNode) : List CodeEntity :=
  extractClsVisit fp rn [] root

/-- PythonParser.parse_content on the tree-sitter path, applied to the
parsed syntax tree: all functions and methods first, then all classes. -/
def parse_content (fp rn : String) (root : TSNode) : List CodeEntity :=
  extract_functions fp rn root ++ extract_classes fp rn root

/-! ## Claim-side comparison definitions

These follow the wording of the claims under check (not the source);
each is compared against the source-derived definition above. -/

/-- The domain boost exactly as claim C2 words it: 1.5 for api.py paths
requires the lowercased name to be a MEMBER of the verb set, and the
0.7 demotion requires the name to START WITH handle_ or test_. -/
def boostSpecC2 (query : String) (e : CodeEntity) : ℚ :=
  if anyKeywordIn (strLower query) ["http", "request", "api"] then
    let fp := strLower e.file_path
    let nm := strLower e.name
    if strContains fp "api.py" &&
        ["request", "get", "post", "put", "patch", "delete", "head", "options"].contains nm then
      1.5
    else if strContains fp "sessions.py" && strContains nm "send" then 1.5
    else if strContains fp "adapters.py" && strContains nm "send" then 1.3
    else if strStartsWith nm "handle_" || strStartsWith nm "test_" then 0.7
    else 1
  else 1

/-- The domain boost as amended: inside the HTTP trigger, an api.py path
gets 1.5 when any verb of the set occurs as a SUBSTRING of the
lowercased name and 1.0 otherwise (the api.py branch wins over the later
rules); then sessions.py/adapters.py with a name containing send; then
0.7 when the name CONTAINS handle_ or test_; else 1.0. -/
def boostAmendedC2 (query : String) (e : CodeEntity) : ℚ :=
  if query == "" then 1
  else if anyKeywordIn (strLower query) ["http", "request", "api"] then
    let fp := strLower e.file_path
    let nm := strLower e.name
    if strContains fp "api.py" then
      if strContains nm "request" || strContains nm "get" || strContains nm "post" ||
          strContains nm "put" || strContains nm "patch" || strContains nm "delete" ||
          strContains nm "head" || strContains nm "options" then 1.5
      else 1
    else if strContains fp "sessions.py" && strContains nm "send" then 1.5
    else if strContains fp "adapters.py" && strContains nm "send" then 1.3
    else if strContains nm "handle_" || strContains nm "test_" then 0.7
    else 1
  else 1

/-- The query rewrite exactly as claim C6 words it (explicit keyword
disjunctions, priority order of the buckets). -/
def enhanceSpecC6 (q : String) : String :=
  let ql := strLower q
  if strContains ql "http" || strContains ql "request" || strContains ql "api" ||
      strContains ql "url" || strContains ql "web" then
    if strContains ql "handle" &&
        !(strContains ql "redirect" || strContains ql "response" || strContains ql "error" ||
          strContains ql "exception" || strContains ql "cookie" || strContains ql "process") then
      "function that sends makes HTTP requests GET POST PUT DELETE PATCH"
    else if strContains ql "make" || strContains ql "send" || strContains ql "perform" ||
        strContains ql "execute" || strContains ql "do" then
      "function that sends or makes HTTP requests: " ++ q
    else "HTTP request function: " ++ q
  else if strContains ql "json" || strContains ql "parse" || strContains ql "decode" then
    "JSON parsing function: " ++ q
  else if strContains ql "auth" || strContains ql "login" || strContains ql "token" then
    "authentication function: " ++ q
  else if strContains ql "download" || strContains ql "file" || strContains ql "save" then
    "file handling function: " ++ q
  else "function or method that " ++ q

/-! ## Concrete fixtures for counterexamples and witnesses -/

/-- An api.py function whose name is no HTTP verb but contains one
("widget" contains "get"). -/
def entWidget : CodeEntity :=
  { id := "w1", name := "widget", entity_type := "function",
    file_path := "pkg/api.py", repo_name := "r" }

/-- A plain function used in fixtures. -/
def entSendA : CodeEntity :=
  { id := "a1", name := "send", entity_type := "function",
    file_path := "requests/sessions.py", repo_name := "requests",
    docstring := some "Send a prepared request.", signature := some "def send(self, request)" }

/-- A second fixture entity. -/
def entHandle : CodeEntity :=
  { id := "b2", name := "handle_request", entity_type := "function",
    file_path := "views.py", repo_name := "app", language := "python" }

/-- A third fixture entity, a method in another repository. -/
def entParse : CodeEntity :=
  { id := "c3", name := "parse_json", entity_type := "method",
    file_path := "lib/codec.py", repo_name := "lib", parent_class := some "Codec" }

/-- Entity for the malformed-load fixture. -/
def entC8 : CodeEntity :=
  { id := "e1", name := "foo", entity_type := "function",
    file_path := "a.py", repo_name := "r" }

/-- A decoded BM25 pickle holding an entity list but no corpus key (a
malformed index file). -/
def malformedC8 : SavedData := ⟨some [entC8], none, none⟩

/-- A small well-formed BM25 state for witnesses. -/
def stC7 : BM25State :=
  ⟨[entSendA, entHandle], [["send", "prepared", "request"], ["handle", "request"]],
   [("a1", 0), ("b2", 1)], some [["send", "prepared", "request"], ["handle", "request"]]⟩

/-- A scoring oracle for witnesses: one fixed score per corpus row. -/
def scoreFixture (corpus : List (List String)) (_q : List String) : List ℚ :=
  corpus.map (fun doc => (doc.length : ℚ))

/-- The syntax tree of the Calculator example from tests/test_parser.py
(test_parse_class): a module holding one class with a docstring and the
methods __init__ and add, as tree-sitter parses it. -/
def calcDoc : TSNode :=
  .mk "expression_statement" "\"\"\"A simple calculator.\"\"\"" 2 2
    [.mk "string" "\"\"\"A simple calculator.\"\"\"" 2 2 []]

def calcInit : TSNode :=
  .mk "function_definition" "def __init__(self):\n        self.result = 0" 4 5
    [.mk "def" "def" 4 4 [],
     .mk "identifier" "__init__" 4 4 [],
     .mk "parameters" "(self)" 4 4
       [.mk "(" "(" 4 4 [], .mk "identifier" "self" 4 4 [], .mk ")" ")" 4 4 []],
     .mk ":" ":" 4 4 [],
     .mk "block" "self.result = 0" 5 5
       [.mk "expression_statement" "self.result = 0" 5 5 []]]

def calcAdd : TSNode :=
  .mk "function_definition" "def add(self, x, y):\n        \"\"\"Add two numbers.\"\"\"\n        return x + y" 7 9
    [.mk "def" "def" 7 7 [],
     .mk "identifier" "add" 7 7 [],
     .mk "parameters" "(self, x, y)" 7 7
       [.mk "(" "(" 7 7 [], .mk "identifier" "self" 7 7 [], .mk "," "," 7 7 [],
        .mk "identifier" "x" 7 7 [], .mk "," "," 7 7 [], .mk "identifier" "y" 7 7 [],
        .mk ")" ")" 7 7 []],
     .mk ":" ":" 7 7 [],
     .mk "block" "\"\"\"Add two numbers.\"\"\"\n        return x + y" 8 9
       [.mk "expression_statement" "\"\"\"Add two numbers.\"\"\"" 8 8
          [.mk "string" "\"\"\"Add two numbers.\"\"\"" 8 8 []],
        .mk "return_statement" "return x + y" 9 9 []]]

def calcClass : TSNode :=
  .mk "class_definition"
    "class Calculator:\n    \"\"\"A simple calculator.\"\"\"\n    ..." 1 9
    [.mk "class" "class" 1 1 [],
     .mk "identifier" "Calculator" 1 1 [],
     .mk ":" ":" 1 1 [],
     .mk "block" "..." 2 9 [calcDoc, calcInit, calcAdd]]

def calcModule : TSNode := .mk "module" "" 0 9 [calcClass]

/-- Additional fixtures: a semantic retrieval list with distinct ids and
score spread 0.7. -/
def semFix : List (CodeEntity × ℚ) := [(entSendA, 0.9), (entHandle, 0.2)]

/-- A BM25 retrieval list sharing the id b2 with `semFix`. -/
def bmFix : List (CodeEntity × ℚ) := [(entHandle, 5), (entParse, 2)]

/-! ## Proof-level descriptions of the fusion loops -/

/-- The dictionary produced by the semantic loop started at a given
rank, written out entry by entry (used to reason about
`processSemantic`). -/
def semEntriesFrom (w : ℚ) (k : ℕ) : ℕ → List (CodeEntity × ℚ) → ScoresDict
  | _, [] => []
  | rank, (e, s) :: rest =>
      (e.id, ⟨e, rrfQ k rank * w, s, 0, 0⟩) :: semEntriesFrom w k (rank + 1) rest

/-- Invariant of a fusion-dictionary entry for the fields the BM25 loop
never changes: the key is the entity id, the semantic fields equal the
weighted rank term and raw score dictated by the semantic list, and the
entity comes from one of the two retrieval lists. -/
def fusionBase (sem bm : List (CodeEntity × ℚ)) (w : ℚ) (k : ℕ)
    (p : String × FusionData) : Prop :=
  p.2.entity.id = p.1 ∧
  p.2.semantic_rrf = rrfTermOf k sem p.1 * w ∧
  p.2.semantic_raw = rawOf sem p.1 ∧
  (p.2.entity ∈ sem.map Prod.fst ∨ p.2.entity ∈ bm.map Prod.fst)

/-- Invariant of a fusion-dictionary entry for the BM25 fields after
the whole BM25 list has been processed. -/
def fusionFinal (bm : List (CodeEntity × ℚ)) (wb : ℚ) (k : ℕ)
    (p : String × FusionData) : Prop :=
  p.2.bm25_rrf = rrfTermOf k bm p.1 * wb ∧ p.2.bm25_raw = rawOf bm p.1

/-! # Theorems -/

/-! ### C4 — the BM25 tokenizer -/

/-- C4 counterexample.  The claim says step 4 REMOVES every character
outside lowercase letters, digits and whitespace; the source replaces
such characters with a space.  On "ab#cd" the source tokenizer yields
["ab", "cd"] while the pipeline as claimed yields ["abcd"]. -/
theorem c4_tokenizer_counterexample :
    BM25Index.tokenize "ab#cd" = ["ab", "cd"] ∧
    tokenizeClaimC4 "ab#cd" = ["abcd"] ∧
    BM25Index.tokenize "ab#cd" ≠ tokenizeClaimC4 "ab#cd" :=
  ⟨by decide, by decide, by decide⟩

/-- C4 (amended): the tokenizer inserts spaces at camelCase boundaries
(lowercase-uppercase pairs, then an uppercase run before an
uppercase-lowercase pair), lowercases, replaces the separator characters
with spaces, REPLACES every character outside lowercase letters,
digits and whitespace with a space, splits on whitespace and keeps
tokens of length at least 2; the camel split precedes lowercasing, so
"parseJSONData" tokenizes to parse, json, data. -/
theorem c4_tokenizer_amended :
    (∀ s : String, BM25Index.tokenize s = tokenizeAmendedC4 s) ∧
    "parse" ∈ BM25Index.tokenize "parseJSONData" ∧
    "json" ∈ BM25Index.tokenize "parseJSONData" ∧
    "data" ∈ BM25Index.tokenize "parseJSONData" :=
  ⟨fun _ => rfl, by decide, by decide, by decide⟩

/-! ### C8 — loading a missing or malformed BM25 index file -/

/-- C8: the code contradicts the claim's atomicity part.  Loading a
pickle that holds an entities list but no corpus key returns False
without raising, yet leaves the freshly constructed index with a
non-empty entity list next to an empty corpus and id map: the three
components are NOT replaced together, and the index is not empty.  The
scorer stays unbuilt, so search still returns nothing. -/
theorem c8_partial_load_bug :
    (BM25State.load freshBM25 (some malformedC8)).2 = false ∧
    (BM25State.load freshBM25 (some malformedC8)).1.entities = [entC8] ∧
    (BM25State.load freshBM25 (some malformedC8)).1.corpus = [] ∧
    (BM25State.load freshBM25 (some malformedC8)).1.entity_ids = [] ∧
    (BM25State.load freshBM25 (some malformedC8)).1.entities ≠ [] ∧
    ∀ score q limit f,
      BM25State.search score (BM25State.load freshBM25 (some malformedC8)).1 q limit f = [] :=
  ⟨by decide, by decide, by decide, by decide, by decide, fun _ _ _ _ => rfl⟩

/-! ### C9 — extraction order of the Python parser -/

/-- C9: the code contradicts the claim (and its own test
test_parse_class).  On the Calculator module the tree-sitter path of
PythonParser.parse_content emits the two methods and NO class entity at
all: the class visitor of _extract_classes only recurses into children
that are not class_definition nodes and is invoked on the module root,
so no class_definition node is ever visited; in particular the outer
class neither precedes its methods nor appears. -/
theorem c9_missing_class_entities :
    (parse_content "test.py" "test-repo" calcModule).map
        (fun e => (e.name, e.entity_type, e.parent_class)) =
      [("__init__", "method", some "Calculator"), ("add", "method", some "Calculator")] ∧
    (parse_content "test.py" "test-repo" calcModule).filter
        (fun e => e.entity_type == "class") = [] ∧
    extract_classes "test.py" "test-repo" calcModule = [] :=
  ⟨by decide, by decide, by decide⟩

/-! ### C7 — BM25 save/load round trip -/

/-- C7: on any state whose scorer is consistent with its corpus, saving
and loading into a fresh index returns True and restores the state
exactly, so search over any scoring oracle, query, limit and filters is
unchanged. -/
theorem c7_save_load_roundtrip (st : BM25State) (h : BM25WF st) :
    (BM25State.load freshBM25 (some st.save)).2 = true ∧
    (BM25State.load freshBM25 (some st.save)).1 = st ∧
    ∀ score q limit f,
      BM25State.search score (BM25State.load freshBM25 (some st.save)).1 q limit f =
        BM25State.search score st q limit f := by
  have hst : (BM25State.load freshBM25 (some st.save)).1 = st := by
    cases st with
    | mk es cs ids bm =>
      unfold BM25WF at h
      simp only at h
      simp only [BM25State.save, BM25State.load, rebuildIndex, freshBM25]
      by_cases hc : cs.isEmpty <;> simp_all
  exact ⟨rfl, hst, fun score q limit f => by rw [hst]⟩

/-- C7 witness at a concrete two-entity index. -/
theorem c7_save_load_roundtrip_witness :
    (BM25State.load freshBM25 (some stC7.save)).2 = true ∧
    (BM25State.load freshBM25 (some stC7.save)).1 = stC7 ∧
    ∀ score q limit f,
      BM25State.search score (BM25State.load freshBM25 (some stC7.save)).1 q limit f =
        BM25State.search score stC7 q limit f :=
  c7_save_load_roundtrip stC7 (by unfold BM25WF; decide)

/-! ### C5 — adaptive weighting -/

/-- C5: with a nonempty semantic result set, the effective semantic
weight is 0.3 exactly when the vector-score spread is below 0.05 and
the caller-supplied weight otherwise; fusion runs with that effective
weight against a BM25 weight of one minus it; the engine default weight
is 0.7. -/
theorem c5_adaptive_weighting (sem bm : List (CodeEntity × ℚ)) (w : ℚ) (k : ℕ)
    (q : Option String) (h : sem ≠ []) :
    effectiveSemanticWeight sem w = (if scoreRange sem < 0.05 then 0.3 else w) ∧
    reciprocal_rank_fusion sem bm w k q =
      rrfWithWeight sem bm (effectiveSemanticWeight sem w) k q ∧
    (∀ w' : ℚ, rrfWithWeight sem bm w' k q =
      (combineScores q (processBM25 (1 - w') k 0 bm
        (processSemantic w' k 0 sem []))).insertionSort (fun a b => b.2.1 ≤ a.2.1)) ∧
    defaultSemanticWeight = 0.7 := by
  refine ⟨?_, rfl, fun w' => rfl, rfl⟩
  unfold effectiveSemanticWeight
  simp [h]

/-- C5 witness: the spread of `semFix` is 0.7, no override. -/
theorem c5_adaptive_weighting_witness :
    effectiveSemanticWeight semFix defaultSemanticWeight =
      (if scoreRange semFix < 0.05 then 0.3 else defaultSemanticWeight) ∧
    reciprocal_rank_fusion semFix bmFix defaultSemanticWeight 60 (some "send request") =
      rrfWithWeight semFix bmFix (effectiveSemanticWeight semFix defaultSemanticWeight) 60
        (some "send request") ∧
    (∀ w' : ℚ, rrfWithWeight semFix bmFix w' 60 (some "send request") =
      (combineScores (some "send request") (processBM25 (1 - w') 60 0 bmFix
        (processSemantic w' 60 0 semFix []))).insertionSort (fun a b => b.2.1 ≤ a.2.1)) ∧
    defaultSemanticWeight = 0.7 :=
  c5_adaptive_weighting semFix bmFix defaultSemanticWeight 60 (some "send request") (by decide)

/-! ### C6 — query-rewrite buckets and where the rewrite is used -/

/-- C6: every query is rewritten by exactly the bucket table of the
claim (checked as an equality of the source rewrite against the
bucket-by-bucket restatement), and in hybrid search the rewritten query
feeds only the embedding while BM25 search, fusion and boosting receive
the original query. -/
theorem c6_query_enhancement :
    (∀ q : String, enhance_query q = enhanceSpecC6 q) ∧
    ∀ (q : String) (embed : String → List ℚ)
      (vsearch : List ℚ → ℕ → Filters → List (CodeEntity × ℚ))
      (score : List (List String) → List String → List ℚ)
      (st : BM25State) (limit : ℕ) (f : Filters) (sw : Option ℚ) (ew : ℚ),
      hybridSearch embed vsearch score st q limit f sw ew =
        ((reciprocal_rank_fusion (vsearch (embed (enhance_query q)) (limit * 2) f)
            (BM25State.search score st q (limit * 2) f) (sw.getD ew) 60 (some q)).take
          limit).map (fun x => ⟨x.1, x.2.1, x.2.2.1, x.2.2.2, extract_highlights x.1⟩) := by
  constructor
  · intro q
    unfold enhance_query enhanceSpecC6 anyKeywordIn
    simp only [List.any_cons, List.any_nil, Bool.or_false, Bool.or_assoc]
  · intro q embed vsearch score st limit f sw ew
    rfl

/-! ### C2 — the HTTP domain boost -/

/-- C2 counterexample.  The claim requires set MEMBERSHIP of the name
for the api.py rule (and a handle_/test_ PREFIX for the demotion); the
source tests substring containment.  With query "api" and the api.py
entity named "widget" (which contains "get" but is no verb), the source
boost is 1.5 while the claimed table gives 1. -/
theorem c2_boost_counterexample :
    http_boost (some "api") entWidget = 1.5 ∧
    boostSpecC2 "api" entWidget = 1 ∧
    http_boost (some "api") entWidget ≠ boostSpecC2 "api" entWidget :=
  ⟨by decide, by decide, by decide⟩

/-- C2 (amended): for a nonempty query containing http, request or api,
the boost is the amended table built on substring containment (api.py
paths take 1.5 when any verb occurs inside the lowercased name and 1.0
otherwise, sessions.py/adapters.py with names containing send take
1.5/1.3, names containing handle_ or test_ take 0.7, else 1.0); for a
query without those keywords the boost is 1.0; and fusion multiplies the
summed rank contributions by the boost before the final sort. -/
theorem c2_boost_amended :
    (∀ (q : String) (e : CodeEntity), http_boost (some q) e = boostAmendedC2 q e) ∧
    (∀ (q : String) (e : CodeEntity),
      anyKeywordIn (strLower q) ["http", "request", "api"] = false →
        http_boost (some q) e = 1) ∧
    (∀ (sem bm : List (CodeEntity × ℚ)) (w : ℚ) (k : ℕ) (qo : Option String),
      rrfWithWeight sem bm w k qo =
        (combineScores qo (processBM25 (1 - w) k 0 bm
          (processSemantic w k 0 sem []))).insertionSort (fun a b => b.2.1 ≤ a.2.1)) := by
  refine ⟨?_, ?_, fun sem bm w k qo => rfl⟩
  · intro q e
    by_cases hq : q = ""
    · subst hq; rfl
    · have hq' : (q == "") = false := by simp [hq]
      unfold http_boost boostAmendedC2 anyKeywordIn
      simp only [hq', List.any_cons, List.any_nil, Bool.or_false, Bool.or_assoc,
        Bool.not_false, Bool.true_and, Bool.false_eq_true, if_false]
  · intro q e h
    unfold http_boost
    simp [h]

/-- C2 witness: a query with none of the keywords gets boost 1 and
agrees with the amended table. -/
theorem c2_boost_amended_witness :
    http_boost (some "sort items") entWidget = boostAmendedC2 "sort items" entWidget ∧
    http_boost (some "sort items") entWidget = 1 :=
  ⟨c2_boost_amended.1 "sort items" entWidget,
   c2_boost_amended.2.1 "sort items" entWidget (by decide)⟩

/-! ### Helper lemmas about ranks, lookups and the fusion dictionary -/

/-- Membership from an index lookup. -/
theorem memOfGetElem {α : Type} {l : List α} {i : ℕ} {x : α} (h : l[i]? = some x) :
    x ∈ l := by
  induction l generalizing i with
  | nil => simp at h
  | cons a t ih =>
    cases i with
    | zero => rw [List.getElem?_cons_zero] at h; injection h with h; exact h ▸ List.mem_cons_self a t
    | succ j => rw [List.getElem?_cons_succ] at h; exact List.mem_cons_of_mem a (ih h)

/-- findIdx? with a shifted start index. -/
theorem findIdx?_start {α : Type} (p : α → Bool) (l : List α) (j : ℕ) :
    l.findIdx? p j = (l.findIdx? p 0).map (fun i => j + i) := by
  induction l generalizing j with
  | nil => simp [List.findIdx?_nil]
  | cons a t ih =>
    rw [List.findIdx?_cons, List.findIdx?_cons]
    by_cases h : p a
    · simp [h]
    · rw [if_neg (by simp [h]), if_neg (by simp [h]), ih (j + 1), ih 1, Option.map_map]
      congr 1
      funext i
      simp only [Function.comp_apply]
      omega

/-- With distinct ids, the row at index `i` is found at rank `i` and is
what `find?` returns for its id. -/
theorem rank_find_of_getElem {l : List (CodeEntity × ℚ)} (hnd : (idsOf l).Nodup)
    {i : ℕ} {x : CodeEntity × ℚ} (hget : l[i]? = some x) :
    rankOf l x.1.id = some i ∧ l.find? (fun p => p.1.id == x.1.id) = some x := by
  induction l generalizing i with
  | nil => simp at hget
  | cons a t ih =>
    have hnd2 : a.1.id ∉ idsOf t ∧ (idsOf t).Nodup := by
      simpa [idsOf, List.nodup_cons] using hnd
    cases i with
    | zero =>
      rw [List.getElem?_cons_zero] at hget
      injection hget with hget
      subst hget
      refine ⟨?_, ?_⟩
      · unfold rankOf
        rw [List.findIdx?_cons, if_pos (by simp)]
      · rw [List.find?_cons_of_pos (p := fun r => r.1.id == a.1.id) t (by simp)]
    | succ j =>
      rw [List.getElem?_cons_succ] at hget
      have hmem : x ∈ t := memOfGetElem hget
      have hidmem : x.1.id ∈ idsOf t := List.mem_map.mpr ⟨x, hmem, rfl⟩
      have hne : ¬((a.1.id == x.1.id) = true) := by
        simp only [beq_iff_eq]
        intro hcontra
        exact hnd2.1 (hcontra ▸ hidmem)
      obtain ⟨hr, hf⟩ := ih hnd2.2 hget
      refine ⟨?_, ?_⟩
      · unfold rankOf at hr ⊢
        rw [List.findIdx?_cons, if_neg hne, findIdx?_start, hr]
        simp [Nat.add_comm]
      · rw [List.find?_cons_of_neg (p := fun r => r.1.id == x.1.id) t hne, hf]

/-- An id absent from a retrieval list has no rank, no row, a zero rank
term and a zero raw score. -/
theorem rank_find_none {l : List (CodeEntity × ℚ)} {id : String} (h : id ∉ idsOf l) (k : ℕ) :
    rankOf l id = none ∧ l.find? (fun p => p.1.id == id) = none ∧
    rrfTermOf k l id = 0 ∧ rawOf l id = 0 := by
  have base : rankOf l id = none ∧ l.find? (fun p => p.1.id == id) = none := by
    induction l with
    | nil => refine ⟨by simp [rankOf, List.findIdx?_nil], by simp⟩
    | cons a t ih =>
      have h2 : ¬(id = a.1.id) ∧ id ∉ idsOf t := by
        simpa [idsOf, List.mem_cons] using h
      have hne : ¬((a.1.id == id) = true) := by
        simp only [beq_iff_eq]
        exact fun hcontra => h2.1 hcontra.symm
      obtain ⟨hr, hf⟩ := ih (by simpa [idsOf] using h2.2)
      refine ⟨?_, ?_⟩
      · unfold rankOf at hr ⊢
        rw [List.findIdx?_cons, if_neg hne, findIdx?_start, hr]
        rfl
      · rw [List.find?_cons_of_neg (p := fun r => r.1.id == id) t hne, hf]
  exact ⟨base.1, base.2, by unfold rrfTermOf; rw [base.1], by unfold rawOf; rw [base.2]⟩

/-- find? of a member, under distinct ids. -/
theorem find_of_mem_nodup {l : List (CodeEntity × ℚ)} (hnd : (idsOf l).Nodup)
    {x : CodeEntity × ℚ} (hx : x ∈ l) :
    l.find? (fun p => p.1.id == x.1.id) = some x ∧ rawOf l x.1.id = x.2 := by
  obtain ⟨i, hi⟩ := List.getElem?_of_mem hx
  obtain ⟨_, hf⟩ := rank_find_of_getElem hnd hi
  exact ⟨hf, by unfold rawOf; rw [hf]⟩

/-- The `in` test of the Python dict, as key membership. -/
theorem anyKey_iff (d : ScoresDict) (key : String) :
    (d.any (fun p => p.1 == key)) = true ↔ key ∈ keysOf d := by
  rw [List.any_eq_true]
  constructor
  · rintro ⟨p, hp, hk⟩
    exact List.mem_map.mpr ⟨p, hp, by simpa using hk⟩
  · rintro hm
    obtain ⟨p, hp, he⟩ := List.mem_map.mp hm
    exact ⟨p, hp, by simp [he]⟩

/-- Inserting a fresh key appends. -/
theorem dictSet_append (d : ScoresDict) (key : String) (v : FusionData)
    (h : key ∉ keysOf d) : dictSet d key v = d ++ [(key, v)] := by
  unfold dictSet
  rw [if_neg]
  intro hc
  exact h ((anyKey_iff d key).mp hc)

/-- The keys of the semantic-loop dictionary are the semantic ids. -/
theorem keysOf_semEntriesFrom (w : ℚ) (k : ℕ) (l : List (CodeEntity × ℚ)) :
    ∀ r, keysOf (semEntriesFrom w k r l) = idsOf l := by
  induction l with
  | nil => intro r; rfl
  | cons a t ih =>
    intro r
    obtain ⟨e, s⟩ := a
    simp only [semEntriesFrom, keysOf, idsOf, List.map_cons] at *
    exact congrArg (e.id :: ·) (ih (r + 1))

/-- The semantic loop over a list with distinct ids appends exactly one
entry per row to any dictionary whose keys avoid those ids. -/
theorem processSemantic_eq (w : ℚ) (k : ℕ) (l : List (CodeEntity × ℚ)) :
    ∀ (r : ℕ) (d : ScoresDict), (∀ id ∈ idsOf l, id ∉ keysOf d) → (idsOf l).Nodup →
    processSemantic w k r l d = d ++ semEntriesFrom w k r l := by
  induction l with
  | nil => intro r d _ _; simp [processSemantic, semEntriesFrom]
  | cons a t ih =>
    intro r d hdisj hnd
    obtain ⟨e, s⟩ := a
    have hnd2 : e.id ∉ idsOf t ∧ (idsOf t).Nodup := by
      simpa [idsOf, List.nodup_cons] using hnd
    have hkey : e.id ∉ keysOf d := hdisj e.id (by simp [idsOf])
    have hstep : processSemantic w k r ((e, s) :: t) d =
        processSemantic w k (r + 1) t (d ++ [(e.id, ⟨e, rrfQ k r * w, s, 0, 0⟩)]) := by
      rw [processSemantic, dictSet_append d e.id _ hkey]
    rw [hstep, ih (r + 1) _ ?_ hnd2.2]
    · simp [semEntriesFrom]
    · intro id hid
      have hd : id ∉ keysOf d := hdisj id (by
        unfold idsOf at hid ⊢
        simp only [List.map_cons, List.mem_cons]
        exact Or.inr hid)
      have hne : id ≠ e.id := by
        intro hcontra
        exact hnd2.1 (hcontra ▸ hid)
      unfold keysOf at hd ⊢
      simp only [List.map_append, List.map_cons, List.map_nil, List.mem_append,
        List.mem_cons, List.not_mem_nil, or_false]
      rintro (h1 | h2)
      · exact hd h1
      · exact hne h2

/-- Field-level description of each semantic-loop entry. -/
theorem semEntriesFrom_spec (w : ℚ) (k : ℕ) (l : List (CodeEntity × ℚ)) :
    ∀ (r : ℕ), (idsOf l).Nodup →
    ∀ q ∈ semEntriesFrom w k r l,
      q.2.entity.id = q.1 ∧ q.2.bm25_rrf = 0 ∧ q.2.bm25_raw = 0 ∧
      ∃ i, rankOf l q.1 = some i ∧ q.2.semantic_rrf = rrfQ k (r + i) * w ∧
        l.find? (fun p => p.1.id == q.1) = some (q.2.entity, q.2.semantic_raw) ∧
        (q.2.entity, q.2.semantic_raw) ∈ l := by
  induction l with
  | nil => intro r _ q hq; simp [semEntriesFrom] at hq
  | cons a t ih =>
    intro r hnd q hq
    obtain ⟨e, s⟩ := a
    have hnd2 : e.id ∉ idsOf t ∧ (idsOf t).Nodup := by
      simpa [idsOf, List.nodup_cons] using hnd
    rw [semEntriesFrom, List.mem_cons] at hq
    rcases hq with hq | hq
    · subst hq
      refine ⟨rfl, rfl, rfl, 0, ?_, by simp, ?_, by simp⟩
      · unfold rankOf
        rw [List.findIdx?_cons, if_pos (by simp)]
      · rw [List.find?_cons_of_pos (p := fun r => r.1.id == e.id) t (by simp)]
    · obtain ⟨hid, hb1, hb2, i, hrank, hsem, hfind, hmem⟩ := ih (r + 1) hnd2.2 q hq
      have hq1 : q.1 ∈ idsOf t := by
        rw [← hid]
        exact List.mem_map.mpr ⟨(q.2.entity, q.2.semantic_raw), hmem, rfl⟩
      have hne : ¬((e.id == q.1) = true) := by
        simp only [beq_iff_eq]
        intro hcontra
        exact hnd2.1 (hcontra ▸ hq1)
      refine ⟨hid, hb1, hb2, i + 1, ?_, ?_, ?_, List.mem_cons_of_mem _ hmem⟩
      · unfold rankOf at hrank ⊢
        rw [List.findIdx?_cons, if_neg hne, findIdx?_start, hrank]
        simp [Nat.add_comm]
      · rw [hsem, show r + 1 + i = r + (i + 1) from by omega]
      · rw [List.find?_cons_of_neg (p := fun r => r.1.id == q.1) t hne, hfind]

/-- Main invariant of the BM25 loop.  Hypotheses: the remaining rows
have distinct ids; row `i` of the remainder is row `r + i` of the full
BM25 list; every semantic id is already a key; keys are distinct; every
entry satisfies the base invariant; every entry whose key the remainder
does not touch already carries its final BM25 fields.  Conclusions:
every entry of the result satisfies both invariants, its keys are
distinct and extend the incoming keys, and every remaining row's id
becomes a key. -/
theorem processBM25_spec (sem bmFull : List (CodeEntity × ℚ)) (w wb : ℚ) (k : ℕ)
    (hbnd : (idsOf bmFull).Nodup) :
    ∀ (rest : List (CodeEntity × ℚ)) (r : ℕ) (d : ScoresDict),
    (idsOf rest).Nodup →
    (∀ (i : ℕ) (x : CodeEntity × ℚ), rest[i]? = some x → bmFull[r + i]? = some x) →
    (∀ id ∈ idsOf sem, id ∈ keysOf d) →
    (keysOf d).Nodup →
    (∀ p ∈ d, fusionBase sem bmFull w k p) →
    (∀ p ∈ d, p.1 ∉ idsOf rest → fusionFinal bmFull wb k p) →
    (∀ p ∈ processBM25 wb k r rest d,
      fusionBase sem bmFull w k p ∧ fusionFinal bmFull wb k p) ∧
    (keysOf (processBM25 wb k r rest d)).Nodup ∧
    (∀ id ∈ keysOf d, id ∈ keysOf (processBM25 wb k r rest d)) ∧
    (∀ x ∈ rest, x.1.id ∈ keysOf (processBM25 wb k r rest d)) := by
  intro rest
  induction rest with
  | nil =>
    intro r d _ _ _ hknd hbase hfin
    refine ⟨fun p hp => ⟨hbase p hp, hfin p hp (by simp [idsOf])⟩, hknd, fun id h => h, by simp⟩
  | cons x t ih =>
    intro r d hnd hconn hsem hknd hbase hfin
    obtain ⟨e, s⟩ := x
    have hnd2 : e.id ∉ idsOf t ∧ (idsOf t).Nodup := by
      simpa [idsOf, List.nodup_cons] using hnd
    have hbm_r : bmFull[r]? = some (e, s) := by
      have := hconn 0 (e, s) (by simp)
      simpa using this
    have hrank := rank_find_of_getElem hbnd hbm_r
    have hterm : rrfTermOf k bmFull e.id = rrfQ k r := by
      unfold rrfTermOf
      rw [hrank.1]
    have hraw : rawOf bmFull e.id = s := by
      unfold rawOf
      rw [hrank.2]
    have hmemBm : (e, s) ∈ bmFull := memOfGetElem hbm_r
    have hconn2 : ∀ (i : ℕ) (x : CodeEntity × ℚ), t[i]? = some x → bmFull[(r + 1) + i]? = some x := by
      intro i x hx
      have := hconn (i + 1) x (by rw [List.getElem?_cons_succ]; exact hx)
      rwa [show r + (i + 1) = (r + 1) + i from by omega] at this
    by_cases hc : (d.any (fun p => p.1 == e.id)) = true
    · -- the id is already a key: the entry's BM25 fields are assigned in place
      have hstep : processBM25 wb k r ((e, s) :: t) d =
          processBM25 wb k (r + 1) t
            (d.map (fun p => if p.1 == e.id then
              (p.1, { p.2 with bm25_rrf := rrfQ k r * wb, bm25_raw := s }) else p)) := by
        rw [processBM25, if_pos hc]
      set upd := fun p : String × FusionData => if p.1 == e.id then
        (p.1, { p.2 with bm25_rrf := rrfQ k r * wb, bm25_raw := s }) else p with hupd
      have hfst : ∀ p : String × FusionData, (upd p).1 = p.1 := by
        intro p
        simp only [hupd]
        by_cases hp : (p.1 == e.id) = true
        · rw [if_pos hp]
        · rw [if_neg hp]
      have hkeys : keysOf (d.map upd) = keysOf d := by
        unfold keysOf
        rw [List.map_map]
        exact List.map_congr_left (fun p _ => hfst p)
      rw [hstep]
      obtain ⟨ih1, ih2, ih3, ih4⟩ := ih (r + 1) (d.map upd) hnd2.2 hconn2
        (fun id hm => by rw [hkeys]; exact hsem id hm)
        (by rw [hkeys]; exact hknd)
        (by
          intro p' hp'
          obtain ⟨p, hp, hpe⟩ := List.mem_map.mp hp'
          subst hpe
          simp only [hupd]
          by_cases hp1 : (p.1 == e.id) = true
          · rw [if_pos hp1]
            obtain ⟨h1, h2, h3, h4⟩ := hbase p hp
            exact ⟨h1, h2, h3, h4⟩
          · rw [if_neg hp1]
            exact hbase p hp)
        (by
          intro p' hp' hnt
          obtain ⟨p, hp, hpe⟩ := List.mem_map.mp hp'
          subst hpe
          simp only [hupd] at hnt ⊢
          by_cases hp1 : (p.1 == e.id) = true
          · rw [if_pos hp1]
            refine ⟨?_, ?_⟩
            · show rrfQ k r * wb = rrfTermOf k bmFull p.1 * wb
              rw [show p.1 = e.id from by simpa using hp1, hterm]
            · show s = rawOf bmFull p.1
              rw [show p.1 = e.id from by simpa using hp1, hraw]
          · rw [if_neg hp1]
            rw [if_neg hp1] at hnt
            refine hfin p hp ?_
            intro hmem
            rcases (by simpa [idsOf] using hmem : p.1 = e.id ∨ p.1 ∈ idsOf t) with h | h
            · exact hp1 (by simp [h])
            · exact hnt h)
      refine ⟨ih1, ih2, ?_, ?_⟩
      · intro id hm
        exact ih3 id (by rw [hkeys]; exact hm)
      · intro x hx
        rcases List.mem_cons.mp hx with hx | hx
        · subst hx
          exact ih3 e.id (by rw [hkeys]; exact (anyKey_iff d e.id).mp hc)
        · exact ih4 x hx
    · -- fresh id: a new entry with zero semantic fields is appended
      have hstep : processBM25 wb k r ((e, s) :: t) d =
          processBM25 wb k (r + 1) t (d ++ [(e.id, ⟨e, 0, 0, rrfQ k r * wb, s⟩)]) := by
        rw [processBM25, if_neg hc]
      have hkeynotin : e.id ∉ keysOf d := fun hm => hc ((anyKey_iff d e.id).mpr hm)
      have hnotinsem : e.id ∉ idsOf sem := fun hm => hkeynotin (hsem e.id hm)
      have hzero := rank_find_none (l := sem) hnotinsem k
      have hkeys : keysOf (d ++ [(e.id, (⟨e, 0, 0, rrfQ k r * wb, s⟩ : FusionData))]) =
          keysOf d ++ [e.id] := by
        simp [keysOf]
      have hbaseNew : fusionBase sem bmFull w k (e.id, ⟨e, 0, 0, rrfQ k r * wb, s⟩) := by
        refine ⟨rfl, ?_, ?_, Or.inr (List.mem_map.mpr ⟨(e, s), hmemBm, rfl⟩)⟩
        · show (0 : ℚ) = rrfTermOf k sem e.id * w
          rw [hzero.2.2.1, zero_mul]
        · show (0 : ℚ) = rawOf sem e.id
          rw [hzero.2.2.2]
      have hfinNew : fusionFinal bmFull wb k (e.id, ⟨e, 0, 0, rrfQ k r * wb, s⟩) := by
        refine ⟨?_, ?_⟩
        · show rrfQ k r * wb = rrfTermOf k bmFull e.id * wb
          rw [hterm]
        · show s = rawOf bmFull e.id
          rw [hraw]
      rw [hstep]
      obtain ⟨ih1, ih2, ih3, ih4⟩ := ih (r + 1) _ hnd2.2 hconn2
        (fun id hm => by rw [hkeys]; exact List.mem_append.mpr (Or.inl (hsem id hm)))
        (by
          rw [hkeys]
          exact List.Nodup.append hknd (by simp) (List.disjoint_singleton.mpr hkeynotin))
        (by
          intro p' hp'
          rcases List.mem_append.mp hp' with hp' | hp'
          · exact hbase p' hp'
          · rw [List.mem_singleton.mp hp']
            exact hbaseNew)
        (by
          intro p' hp' hnt
          rcases List.mem_append.mp hp' with hp' | hp'
          · refine hfin p' hp' ?_
            intro hmem
            rcases (by simpa [idsOf] using hmem : p'.1 = e.id ∨ p'.1 ∈ idsOf t) with h | h
            · exact hkeynotin (h ▸ List.mem_map.mpr ⟨p', hp', rfl⟩)
            · exact hnt h
          · rw [List.mem_singleton.mp hp']
            exact hfinNew)
      refine ⟨ih1, ih2, ?_, ?_⟩
      · intro id hm
        exact ih3 id (by rw [hkeys]; exact List.mem_append.mpr (Or.inl hm))
      · intro x hx
        rcases List.mem_cons.mp hx with hx | hx
        · subst hx
          exact ih3 e.id (by rw [hkeys]; exact List.mem_append.mpr (Or.inr (by simp)))
        · exact ih4 x hx

/-- The fusion dictionary built from two retrieval lists with distinct
ids: entries satisfy both invariants, keys are distinct and cover both
id sets. -/
theorem fusionDict_spec (sem bm : List (CodeEntity × ℚ)) (w : ℚ) (k : ℕ)
    (hs : (idsOf sem).Nodup) (hb : (idsOf bm).Nodup) :
    (∀ p ∈ processBM25 (1 - w) k 0 bm (processSemantic w k 0 sem []),
      fusionBase sem bm w k p ∧ fusionFinal bm (1 - w) k p) ∧
    (keysOf (processBM25 (1 - w) k 0 bm (processSemantic w k 0 sem []))).Nodup ∧
    (∀ id ∈ idsOf sem,
      id ∈ keysOf (processBM25 (1 - w) k 0 bm (processSemantic w k 0 sem []))) ∧
    (∀ x ∈ bm,
      x.1.id ∈ keysOf (processBM25 (1 - w) k 0 bm (processSemantic w k 0 sem []))) := by
  have hd0 : processSemantic w k 0 sem [] = semEntriesFrom w k 0 sem := by
    rw [processSemantic_eq w k sem 0 [] (by intro id _ h; simp [keysOf] at h) hs]
    rfl
  have hkeys0 : keysOf (semEntriesFrom w k 0 sem) = idsOf sem :=
    keysOf_semEntriesFrom w k sem 0
  have hbase0 : ∀ p ∈ semEntriesFrom w k 0 sem, fusionBase sem bm w k p := by
    intro p hp
    obtain ⟨hid, hb1, hb2, i, hrank, hsem, hfind, hmem⟩ :=
      semEntriesFrom_spec w k sem 0 hs p hp
    refine ⟨hid, ?_, ?_,
      Or.inl (List.mem_map.mpr ⟨(p.2.entity, p.2.semantic_raw), hmem, rfl⟩)⟩
    · rw [hsem, show (0 : ℕ) + i = i from by omega]
      unfold rrfTermOf
      rw [hrank]
    · unfold rawOf
      rw [hfind]
  have hfin0 : ∀ p ∈ semEntriesFrom w k 0 sem,
      p.1 ∉ idsOf bm → fusionFinal bm (1 - w) k p := by
    intro p hp hnm
    obtain ⟨_, hb1, hb2, _⟩ := semEntriesFrom_spec w k sem 0 hs p hp
    have hz := rank_find_none (l := bm) hnm k
    exact ⟨by rw [hb1, hz.2.2.1, zero_mul], by rw [hb2, hz.2.2.2]⟩
  rw [hd0]
  obtain ⟨r1, r2, r3, r4⟩ := processBM25_spec sem bm w (1 - w) k hb bm 0
    (semEntriesFrom w k 0 sem) hb
    (fun i x hx => by simpa using hx)
    (fun id hm => by rw [hkeys0]; exact hm)
    (by rw [hkeys0]; exact hs)
    hbase0 hfin0
  exact ⟨r1, r2, fun id hm => r3 id (by rw [hkeys0]; exact hm), r4⟩

/-- Stable sort of fused rows is sorted by descending combined score. -/
theorem pairwise_sortFused (l : List (CodeEntity × ℚ × ℚ × ℚ)) :
    List.Pairwise (fun a b => b.2.1 ≤ a.2.1)
      (l.insertionSort (fun a b => b.2.1 ≤ a.2.1)) := by
  haveI : IsTotal (CodeEntity × ℚ × ℚ × ℚ) (fun a b => b.2.1 ≤ a.2.1) :=
    ⟨fun a b => le_total b.2.1 a.2.1⟩
  haveI : IsTrans (CodeEntity × ℚ × ℚ × ℚ) (fun a b => b.2.1 ≤ a.2.1) :=
    ⟨fun a b c h1 h2 => le_trans h2 h1⟩
  exact List.sorted_insertionSort _ l

/-- Stable sort of BM25 result rows is sorted by descending score. -/
theorem pairwise_sortScored (l : List (CodeEntity × ℚ)) :
    List.Pairwise (fun a b => b.2 ≤ a.2) (l.insertionSort (fun a b => b.2 ≤ a.2)) := by
  haveI : IsTotal (CodeEntity × ℚ) (fun a b => b.2 ≤ a.2) :=
    ⟨fun a b => le_total b.2 a.2⟩
  haveI : IsTrans (CodeEntity × ℚ) (fun a b => b.2 ≤ a.2) :=
    ⟨fun a b c h1 h2 => le_trans h2 h1⟩
  exact List.sorted_insertionSort _ l

/-! ### C1 — Reciprocal Rank Fusion scores and output shape -/

/-- C1: in fusion with effective semantic weight `w` (and BM25 weight
`1 - w`) over retrieval lists with distinct ids, every fused row scores
`(w * 1/(60+i+1) + (1-w) * 1/(60+j+1)) * boost` where `i` and `j` are
the row's 0-based ranks in the semantic and BM25 lists and a missing
rank contributes 0; its third and fourth components are the raw
semantic and BM25 scores (0 when absent); the fused list is sorted by
descending combined score; and hybrid search emits the first `limit`
fused rows as SearchResult records carrying those raw scores. -/
theorem c1_rrf_fusion (sem bm : List (CodeEntity × ℚ)) (w : ℚ) (q : String) (limit : ℕ)
    (hs : (idsOf sem).Nodup) (hb : (idsOf bm).Nodup) :
    (∀ x ∈ rrfWithWeight sem bm w 60 (some q),
      x.2.1 = (rrfTermOf 60 sem x.1.id * w + rrfTermOf 60 bm x.1.id * (1 - w)) *
          http_boost (some q) x.1 ∧
      x.2.2.1 = rawOf sem x.1.id ∧ x.2.2.2 = rawOf bm x.1.id) ∧
    List.Pairwise (fun a b => b.2.1 ≤ a.2.1) (rrfWithWeight sem bm w 60 (some q)) ∧
    (∀ (embed : String → List ℚ)
      (vsearch : List ℚ → ℕ → Filters → List (CodeEntity × ℚ))
      (score : List (List String) → List String → List ℚ)
      (st : BM25State) (f : Filters) (ew : ℚ),
      hybridSearch embed vsearch score st q limit f (some w) ew =
        ((reciprocal_rank_fusion (vsearch (embed (enhance_query q)) (limit * 2) f)
            (BM25State.search score st q (limit * 2) f) w 60 (some q)).take limit).map
          (fun x => ⟨x.1, x.2.1, x.2.2.1, x.2.2.2, extract_highlights x.1⟩)) := by
  obtain ⟨hall, _, _, _⟩ := fusionDict_spec sem bm w 60 hs hb
  refine ⟨?_, ?_, fun embed vsearch score st f ew => rfl⟩
  · intro x hx
    unfold rrfWithWeight at hx
    rw [(List.perm_insertionSort _ _).mem_iff] at hx
    obtain ⟨p, hp, hpe⟩ := List.mem_map.mp hx
    obtain ⟨⟨hid, hsemf, hsraw, _⟩, hbrrf, hbraw⟩ := hall p hp
    subst hpe
    refine ⟨?_, ?_, ?_⟩
    · show (p.2.semantic_rrf + p.2.bm25_rrf) * http_boost (some q) p.2.entity = _
      rw [hsemf, hbrrf, hid]
    · show p.2.semantic_raw = rawOf sem p.2.entity.id
      rw [hsraw, hid]
    · show p.2.bm25_raw = rawOf bm p.2.entity.id
      rw [hbraw, hid]
  · unfold rrfWithWeight
    exact pairwise_sortFused _

/-- C1 witness at concrete two-row retrieval lists sharing one id. -/
theorem c1_rrf_fusion_witness :
    (∀ x ∈ rrfWithWeight semFix bmFix 0.7 60 (some "send request"),
      x.2.1 = (rrfTermOf 60 semFix x.1.id * 0.7 + rrfTermOf 60 bmFix x.1.id * (1 - 0.7)) *
          http_boost (some "send request") x.1 ∧
      x.2.2.1 = rawOf semFix x.1.id ∧ x.2.2.2 = rawOf bmFix x.1.id) ∧
    List.Pairwise (fun a b => b.2.1 ≤ a.2.1) (rrfWithWeight semFix bmFix 0.7 60 (some "send request")) ∧
    (∀ (embed : String → List ℚ)
      (vsearch : List ℚ → ℕ → Filters → List (CodeEntity × ℚ))
      (score : List (List String) → List String → List ℚ)
      (st : BM25State) (f : Filters) (ew : ℚ),
      hybridSearch embed vsearch score st "send request" 5 f (some 0.7) ew =
        ((reciprocal_rank_fusion (vsearch (embed (enhance_query "send request")) (5 * 2) f)
            (BM25State.search score st "send request" (5 * 2) f) 0.7 60 (some "send request")).take 5).map
          (fun x => ⟨x.1, x.2.1, x.2.2.1, x.2.2.2, extract_highlights x.1⟩)) :=
  c1_rrf_fusion semFix bmFix 0.7 "send request" 5 (by decide) (by decide)

/-! ### C10 — fusion neither invents nor duplicates entities -/

/-- C10: over retrieval lists with distinct ids, every fused row's
entity comes from the semantic or the BM25 input list; each entity id
occurs at most once in the fused output; and an id present in both
lists yields exactly one output row, carrying the summed weighted rank
contributions and both raw scores. -/
theorem c10_fusion_no_invention (sem bm : List (CodeEntity × ℚ)) (w : ℚ) (k : ℕ)
    (qo : Option String) (hs : (idsOf sem).Nodup) (hb : (idsOf bm).Nodup) :
    (∀ x ∈ rrfWithWeight sem bm w k qo,
      x.1 ∈ sem.map Prod.fst ∨ x.1 ∈ bm.map Prod.fst) ∧
    ((rrfWithWeight sem bm w k qo).map (fun x => x.1.id)).Nodup ∧
    (∀ p ∈ sem, ∀ p' ∈ bm, p.1.id = p'.1.id →
      ∃ x ∈ rrfWithWeight sem bm w k qo,
        x.1.id = p.1.id ∧
        x.2.1 = (rrfTermOf k sem p.1.id * w + rrfTermOf k bm p.1.id * (1 - w)) *
          http_boost qo x.1 ∧
        x.2.2.1 = p.2 ∧ x.2.2.2 = p'.2 ∧
        ∀ y ∈ rrfWithWeight sem bm w k qo, y.1.id = p.1.id → y = x) := by
  obtain ⟨hall, hknd, hsemkeys, _⟩ := fusionDict_spec sem bm w k hs hb
  have hperm : (rrfWithWeight sem bm w k qo).Perm
      (combineScores qo (processBM25 (1 - w) k 0 bm (processSemantic w k 0 sem []))) := by
    unfold rrfWithWeight
    exact List.perm_insertionSort _ _
  have hids : ((rrfWithWeight sem bm w k qo).map (fun x => x.1.id)).Nodup := by
    rw [(hperm.map (fun x => x.1.id)).nodup_iff]
    unfold combineScores
    rw [List.map_map]
    have : ((processBM25 (1 - w) k 0 bm (processSemantic w k 0 sem [])).map
        ((fun x : CodeEntity × ℚ × ℚ × ℚ => x.1.id) ∘
          (fun p : String × FusionData =>
            (p.2.entity, (p.2.semantic_rrf + p.2.bm25_rrf) * http_boost qo p.2.entity,
             p.2.semantic_raw, p.2.bm25_raw)))) =
        keysOf (processBM25 (1 - w) k 0 bm (processSemantic w k 0 sem [])) := by
      unfold keysOf
      exact List.map_congr_left (fun p hp => (hall p hp).1.1)
    rw [this]
    exact hknd
  refine ⟨?_, hids, ?_⟩
  · intro x hx
    rw [hperm.mem_iff] at hx
    obtain ⟨p, hp, hpe⟩ := List.mem_map.mp hx
    have := (hall p hp).1.2.2.2
    rcases this with h | h
    · exact Or.inl (hpe ▸ h)
    · exact Or.inr (hpe ▸ h)
  · intro p hpmem p' hpmem' hsame
    have hidkey : p.1.id ∈ keysOf (processBM25 (1 - w) k 0 bm (processSemantic w k 0 sem [])) :=
      hsemkeys p.1.id (List.mem_map.mpr ⟨p, hpmem, rfl⟩)
    obtain ⟨entry, hentry, hekey⟩ := List.mem_map.mp hidkey
    have hxmem : (entry.2.entity,
        (entry.2.semantic_rrf + entry.2.bm25_rrf) * http_boost qo entry.2.entity,
        entry.2.semantic_raw, entry.2.bm25_raw) ∈ rrfWithWeight sem bm w k qo := by
      rw [hperm.mem_iff]
      exact List.mem_map.mpr ⟨entry, hentry, rfl⟩
    obtain ⟨⟨hid, hsemf, hsraw, _⟩, hbrrf, hbraw⟩ := hall entry hentry
    have hxid : entry.2.entity.id = p.1.id := by rw [hid, hekey]
    have hfs := find_of_mem_nodup hs hpmem
    have hfb := find_of_mem_nodup hb hpmem'
    refine ⟨_, hxmem, hxid, ?_, ?_, ?_, ?_⟩
    · show (entry.2.semantic_rrf + entry.2.bm25_rrf) * http_boost qo entry.2.entity = _
      rw [hsemf, hbrrf, hekey]
    · show entry.2.semantic_raw = p.2
      rw [hsraw, hekey, hfs.2]
    · show entry.2.bm25_raw = p'.2
      rw [hbraw, hekey, hsame, hfb.2]
    · intro y hy hyid
      exact List.inj_on_of_nodup_map hids hy hxmem (by rw [hyid, hxid])

/-- C10 witness: the fixtures share the id b2 across the two lists. -/
theorem c10_fusion_no_invention_witness :
    (∀ x ∈ rrfWithWeight semFix bmFix 0.7 60 (some "find code"),
      x.1 ∈ semFix.map Prod.fst ∨ x.1 ∈ bmFix.map Prod.fst) ∧
    ((rrfWithWeight semFix bmFix 0.7 60 (some "find code")).map (fun x => x.1.id)).Nodup ∧
    (∀ p ∈ semFix, ∀ p' ∈ bmFix, p.1.id = p'.1.id →
      ∃ x ∈ rrfWithWeight semFix bmFix 0.7 60 (some "find code"),
        x.1.id = p.1.id ∧
        x.2.1 = (rrfTermOf 60 semFix p.1.id * 0.7 + rrfTermOf 60 bmFix p.1.id * (1 - 0.7)) *
          http_boost (some "find code") x.1 ∧
        x.2.2.1 = p.2 ∧ x.2.2.2 = p'.2 ∧
        ∀ y ∈ rrfWithWeight semFix bmFix 0.7 60 (some "find code"), y.1.id = p.1.id → y = x) :=
  c10_fusion_no_invention semFix bmFix 0.7 60 (some "find code") (by decide) (by decide)

/-! ### C3 — BM25 search: score floor, filters, ordering, truncation -/

/-- C3: for any scoring oracle with one score per indexed entity, a
query with no tokens returns nothing; every returned row passes all
supplied filters, pairs an indexed entity with its score, and scores at
least max * 0.01 whenever the maximum score is positive; results are
sorted by descending score and at most `limit` long; and when the
maximum score is not positive no floor is applied: every filter-passing
row appears (whenever the candidate set fits within `limit`). -/
theorem c3_bm25_search (score : List (List String) → List String → List ℚ)
    (st : BM25State) (q : String) (limit : ℕ) (f : Filters)
    (hwf : BM25WF st) (hpar : st.corpus.length = st.entities.length)
    (hlen : (score st.corpus (BM25Index.tokenize q)).length = st.entities.length) :
    (BM25Index.tokenize q = [] → st.search score q limit f = []) ∧
    (∀ x ∈ st.search score q limit f,
      passFilters f x.1 = true ∧
      x ∈ st.entities.zip (score st.corpus (BM25Index.tokenize q)) ∧
      (0 < maxList (score st.corpus (BM25Index.tokenize q)) →
        maxList (score st.corpus (BM25Index.tokenize q)) * 0.01 ≤ x.2)) ∧
    List.Pairwise (fun a b => b.2 ≤ a.2) (st.search score q limit f) ∧
    (st.search score q limit f).length ≤ limit ∧
    (BM25Index.tokenize q ≠ [] →
      maxList (score st.corpus (BM25Index.tokenize q)) ≤ 0 →
      (bm25Candidates st.entities (score st.corpus (BM25Index.tokenize q)) none f).length ≤
        limit →
      ∀ (i : ℕ) (e : CodeEntity) (s : ℚ), st.entities[i]? = some e →
        (score st.corpus (BM25Index.tokenize q))[i]? = some s →
        passFilters f e = true → (e, s) ∈ st.search score q limit f) := by
  unfold BM25WF at hwf
  by_cases htok : BM25Index.tokenize q = []
  · have hse : st.search score q limit f = [] := by
      unfold BM25State.search
      by_cases hc : st.corpus.isEmpty = true
      · simp [hwf, hc]
      · simp [hwf, hc, htok]
    refine ⟨fun _ => hse, ?_, ?_, ?_, ?_⟩
    · rw [hse]; intro x hx; simp at hx
    · rw [hse]; exact List.Pairwise.nil
    · rw [hse]; simp
    · intro htok2; exact absurd htok htok2
  · by_cases hc : st.corpus.isEmpty = true
    · have hentnil : st.entities = [] := by
        have : st.corpus = [] := by
          cases hcorp : st.corpus with
          | nil => rfl
          | cons a t => rw [hcorp] at hc; simp at hc
        rw [this] at hpar
        exact List.length_eq_zero.mp hpar.symm
      have hse : st.search score q limit f = [] := by
        unfold BM25State.search
        simp [hwf, hc]
      refine ⟨fun _ => hse, ?_, ?_, ?_, ?_⟩
      · rw [hse]; intro x hx; simp at hx
      · rw [hse]; exact List.Pairwise.nil
      · rw [hse]; simp
      · intro _ _ _ i e s hie
        rw [hentnil] at hie
        simp at hie
    · have hsome : st.bm25 = some st.corpus := by rw [hwf, if_neg hc]
      by_cases hent : st.entities.isEmpty = true
      · have hentnil : st.entities = [] := by
          cases hes : st.entities with
          | nil => rfl
          | cons a t => rw [hes] at hent; simp at hent
        have hse : st.search score q limit f = [] := by
          unfold BM25State.search
          simp [hsome, hent]
        refine ⟨fun _ => hse, ?_, ?_, ?_, ?_⟩
        · rw [hse]; intro x hx; simp at hx
        · rw [hse]; exact List.Pairwise.nil
        · rw [hse]; simp
        · intro _ _ _ i e s hie
          rw [hentnil] at hie
          simp at hie
      · have hsearch : st.search score q limit f =
            ((bm25Candidates st.entities (score st.corpus (BM25Index.tokenize q))
              (bm25Threshold (score st.corpus (BM25Index.tokenize q))) f).insertionSort
                (fun a b => b.2 ≤ a.2)).take limit := by
          unfold BM25State.search
          simp only [hsome]
          rw [if_neg hent, if_neg (by simpa [List.isEmpty_iff] using htok)]
        refine ⟨fun h => absurd h htok, ?_, ?_, ?_, ?_⟩
        · intro x hx
          rw [hsearch] at hx
          have hx2 : x ∈ (bm25Candidates st.entities (score st.corpus (BM25Index.tokenize q))
              (bm25Threshold (score st.corpus (BM25Index.tokenize q))) f).insertionSort
                (fun a b => b.2 ≤ a.2) := (List.take_sublist limit _).subset hx
          rw [(List.perm_insertionSort _ _).mem_iff] at hx2
          unfold bm25Candidates at hx2
          rw [List.mem_filter] at hx2
          obtain ⟨hzip, hpred⟩ := hx2
          rw [Bool.and_eq_true] at hpred
          refine ⟨hpred.2, hzip, ?_⟩
          intro hmax
          have hthr : bm25Threshold (score st.corpus (BM25Index.tokenize q)) =
              some (maxList (score st.corpus (BM25Index.tokenize q)) * 0.01) := by
            unfold bm25Threshold
            rw [if_pos]
            rw [Bool.and_eq_true]
            refine ⟨?_, by simpa using hmax⟩
            cases hsc : score st.corpus (BM25Index.tokenize q) with
            | nil => rw [hsc] at hmax; simp [maxList] at hmax
            | cons a t => simp
          rw [hthr] at hpred
          have := hpred.1
          unfold bm25Keep at this
          simp only [Bool.not_eq_true'] at this
          exact not_lt.mp (by simpa using this)
        · rw [hsearch]
          exact List.Pairwise.sublist (List.take_sublist _ _) (pairwise_sortScored _)
        · rw [hsearch]
          exact List.length_take_le _ _
        · intro _ hmax hfit i e s hie his hpf
          have hthr : bm25Threshold (score st.corpus (BM25Index.tokenize q)) = none := by
            unfold bm25Threshold
            rw [if_neg]
            rw [Bool.and_eq_true]
            rintro ⟨-, h2⟩
            exact absurd (by simpa using h2) (not_lt.mpr hmax)
          have hmem : (e, s) ∈ bm25Candidates st.entities
              (score st.corpus (BM25Index.tokenize q)) none f := by
            unfold bm25Candidates
            rw [List.mem_filter]
            refine ⟨memOfGetElem (List.getElem?_zip_eq_some.mpr ⟨hie, his⟩), ?_⟩
            rw [Bool.and_eq_true]
            exact ⟨rfl, hpf⟩
          rw [hsearch, hthr]
          have hlenp : ((bm25Candidates st.entities (score st.corpus (BM25Index.tokenize q))
              none f).insertionSort (fun a b => b.2 ≤ a.2)).length ≤ limit := by
            rw [(List.perm_insertionSort _ _).length_eq]
            exact hfit
          rw [List.take_of_length_le hlenp, (List.perm_insertionSort _ _).mem_iff]
          exact hmem

/-- C3 witness at the concrete two-entity index with the length-per-row
scoring oracle and no filters. -/
theorem c3_bm25_search_witness :
    (BM25Index.tokenize "send request" = [] →
      stC7.search scoreFixture "send request" 10 {} = []) ∧
    (∀ x ∈ stC7.search scoreFixture "send request" 10 {},
      passFilters {} x.1 = true ∧
      x ∈ stC7.entities.zip (scoreFixture stC7.corpus (BM25Index.tokenize "send request")) ∧
      (0 < maxList (scoreFixture stC7.corpus (BM25Index.tokenize "send request")) →
        maxList (scoreFixture stC7.corpus (BM25Index.tokenize "send request")) * 0.01 ≤ x.2)) ∧
    List.Pairwise (fun a b => b.2 ≤ a.2) (stC7.search scoreFixture "send request" 10 {}) ∧
    (stC7.search scoreFixture "send request" 10 {}).length ≤ 10 ∧
    (BM25Index.tokenize "send request" ≠ [] →
      maxList (scoreFixture stC7.corpus (BM25Index.tokenize "send request")) ≤ 0 →
      (bm25Candidates stC7.entities
        (scoreFixture stC7.corpus (BM25Index.tokenize "send request")) none {}).length ≤ 10 →
      ∀ (i : ℕ) (e : CodeEntity) (s : ℚ), stC7.entities[i]? = some e →
        (scoreFixture stC7.corpus (BM25Index.tokenize "send request"))[i]? = some s →
        passFilters {} e = true → (e, s) ∈ stC7.search scoreFixture "send request" 10 {}) :=
  c3_bm25_search scoreFixture stC7 "send request" 10 {}
    (by unfold BM25WF; decide) (by decide) (by decide)
